import Mathlib

/-!
Verification of the Dynamic Stop-Loss (DSL) engine of the wolf-strategy
repository (scripts `dsl-combined.py`, `dsl-v4.py`).  The per-position tick
logic (`process_position` in dsl-combined.py, which contains the same
floor/tier/breach pipeline as dsl-v4.py plus the phase-1 autocut) is embedded
as pure Lean functions over exact rationals.  Conventions of the shallow
embedding:

* Python floats are modelled as `ℚ`; `round(x, n)` is modelled as round half
  up at `n` decimals (Python rounds half to even; no statement below depends
  on an exact tie).
* Timestamps (`now`, `createdAt`, `hwTimestamp`) are rationals measured in
  hours; `elapsed_minutes` is derived as `(now - createdAt) * 60`; ISO string
  parsing is modelled as always succeeding.
* Division is the total division of `ℚ` (`x / 0 = 0`), whereas Python raises
  `ZeroDivisionError`; all concrete inputs used below have non-zero
  denominators.
* The price fetch and the close call are external collaborators: a tick takes
  an `Option ℚ` price (none = fetch failed) and a function `ℕ → CloseOutcome`
  giving the outcome of each close attempt.
* Numeric rendering inside human-readable reason strings is approximated by
  the decimal/rational printer `qStr`; integer renderings (breach counts,
  minutes, failure counts) match Python exactly.
-/

/-- Round half up to an integer (model of Python `round(x)`; Python uses
half-to-even, which differs only at exact ties). -/
def roundQ (x : ℚ) : ℤ := ⌊x + 1/2⌋

/-- Round half up at `n` decimal places (model of Python `round(x, n)`). -/
def roundTo (n : ℕ) (x : ℚ) : ℚ := (roundQ (x * 10 ^ n) : ℚ) / 10 ^ n

/-- Display of a rational inside reason strings (approximates Python float
formatting; only used where no claim depends on the exact digits). -/
def qStr (x : ℚ) : String :=
  if x.den = 1 then toString x.num else toString x.num ++ "/" ++ toString x.den

/-- `sub` occurs as a substring of `s` (specification-level counterpart of
Python's `in` on strings). -/
def strContainsP (s sub : String) : Prop :=
  ∃ u v : List Char, s.data = u ++ (sub.data ++ v)

/-- Executable prefix test on char lists. -/
def listIsPfx : List Char → List Char → Bool
  | [], _ => true
  | _ :: _, [] => false
  | p :: ps, c :: cs => p == c && listIsPfx ps cs

/-- Executable substring test on char lists. -/
def listHasSub (pat : List Char) : List Char → Bool
  | [] => pat.isEmpty
  | c :: cs => listIsPfx pat (c :: cs) || listHasSub pat cs

/-- Executable model of Python's `sub in s` on strings. -/
def strContainsB (s sub : String) : Bool := listHasSub sub.data s.data

/-- One profit tier (an element of the `tiers` list of the state file). -/
structure Tier where
  triggerPct : ℚ
  lockPct : ℚ
  retrace : Option ℚ := none
  breachesRequired : Option ℤ := none
  retraceClose : Option ℤ := none
deriving DecidableEq

/-- The `phase1` configuration object of the state file. -/
structure Phase1Cfg where
  retraceThreshold : ℚ
  consecutiveBreachesRequired : ℤ
  absoluteFloor : Option ℚ := none
deriving DecidableEq

/-- The `phase2` configuration object of the state file (both fields looked
up with defaults in the source). -/
structure Phase2Cfg where
  retraceThreshold : Option ℚ := none
  consecutiveBreachesRequired : Option ℤ := none
deriving DecidableEq

/-- The `stagnation` configuration object of the state file. -/
structure StagnationCfg where
  enabled : Option Bool := none
  minROE : Option ℚ := none
  staleHours : Option ℚ := none
  priceRangePct : Option ℚ := none
deriving DecidableEq

/-- A DSL position record (one `dsl-state-WOLF-*.json` file).  Fields absent
from older state files are `Option`s, with the source's point-of-use defaults
applied by the getter functions below. -/
structure DslState where
  direction : String := "LONG"
  active : Bool
  pendingClose : Bool := false
  asset : String := ""
  wallet : String := ""
  entryPrice : ℚ
  size : ℚ
  leverage : ℚ
  highWaterPrice : ℚ
  hwTimestamp : Option ℚ := none
  phase : ℤ
  currentBreachCount : ℤ
  currentTierIndex : Option ℤ := none
  tierFloorPrice : Option ℚ := none
  tiers : List Tier := []
  phase1 : Phase1Cfg
  phase2 : Option Phase2Cfg := none
  phase2TriggerTier : Option ℤ := none
  breachDecay : String := "hard"
  stagnation : Option StagnationCfg := none
  peakROE : Option ℚ := none
  createdAt : Option ℚ := none
  floorPrice : ℚ := 0
  lastCheck : Option ℚ := none
  lastPrice : Option ℚ := none
  closedAt : Option ℚ := none
  closeReason : Option String := none
  consecutiveFetchFailures : ℕ := 0
  maxFetchFailures : Option ℕ := none
deriving DecidableEq

/-- Python `str.upper()` (character-wise uppercasing, kernel-computable). -/
def pyUpper (s : String) : String := String.mk (s.data.map Char.toUpper)

/-- `direction.upper() == "LONG"`. -/
def isLongOf (s : DslState) : Bool := pyUpper s.direction == "LONG"

/-- `computedFloor`: the fresh ROE-based absolute floor
(`correct_floor` in the source), with the percent-vs-decimal normalisation
`retrace_decimal = retrace_roe / 100 if retrace_roe > 1 else retrace_roe`. -/
def correctFloorOf (s : DslState) : ℚ :=
  let rt := s.phase1.retraceThreshold
  let rd := if rt > 1 then rt / 100 else rt
  let rp := rd / s.leverage
  if isLongOf s then roundTo 6 (s.entryPrice * (1 - rp))
  else roundTo 6 (s.entryPrice * (1 + rp))

/-- `existing_floor = state["phase1"].get("absoluteFloor", correct_floor)`. -/
def existingFloorOf (s : DslState) : ℚ :=
  s.phase1.absoluteFloor.getD (correctFloorOf s)

/-- `final_floor`: the reconciled absolute floor written back to
`phase1.absoluteFloor` (and transiently to `floorPrice`). -/
def reconciledFloor (s : DslState) : ℚ :=
  let c := correctFloorOf s
  let e := existingFloorOf s
  if isLongOf s then (if e > 0 then min c e else c)
  else (if e > 0 then max c e else c)

/-- Unrealized PnL in quote units. -/
def upnlOf (s : DslState) (price : ℚ) : ℚ :=
  if isLongOf s then (price - s.entryPrice) * s.size
  else (s.entryPrice - price) * s.size

/-- `margin = entry * size / leverage`. -/
def marginOf (s : DslState) : ℚ := s.entryPrice * s.size / s.leverage

/-- `upnl_pct = upnl / margin * 100` (the ROE percentage). -/
def upnlPctOf (s : DslState) (price : ℚ) : ℚ :=
  upnlOf s price / marginOf s * 100

/-- Whether this tick improves the high water price. -/
def hwUpdatedOf (s : DslState) (price : ℚ) : Bool :=
  (isLongOf s && decide (price > s.highWaterPrice)) ||
  (!isLongOf s && decide (price < s.highWaterPrice))

/-- The high water price after the update step. -/
def hwAfter (s : DslState) (price : ℚ) : ℚ :=
  if hwUpdatedOf s price then price else s.highWaterPrice

/-- The high water timestamp after the update step (initialised to `now` when
absent, refreshed on improvement). -/
def hwTsAfter (s : DslState) (price now : ℚ) : ℚ :=
  if hwUpdatedOf s price || s.hwTimestamp.isNone then now
  else s.hwTimestamp.getD now

/-- The mutable loop state of the tier-upgrade scan. -/
structure ScanSt where
  tierIdx : Option ℤ
  tierFloor : Option ℚ
  phase : ℤ
  breach : ℤ
  changed : Bool
deriving DecidableEq

/-- The tier floor locked on advancing to a tier with lock percentage
`lockPct` (`round(entry + (hw - entry) * lockPct / 100, 4)` for LONG,
mirrored for SHORT). -/
def lockFloor (isLong : Bool) (entry hw lockPct : ℚ) : ℚ :=
  if isLong then roundTo 4 (entry + (hw - entry) * lockPct / 100)
  else roundTo 4 (entry - (entry - hw) * lockPct / 100)

/-- Negation of the scan's skip test
`tier_idx is not None and i <= tier_idx`. -/
def okAdvance (b : Option ℤ) (i : ℕ) : Bool :=
  match b with
  | none => true
  | some p => decide (p < (i : ℤ))

/-- The tier-upgrade loop (`for i, tier in enumerate(tiers): ...`), with `i`
the index of the head of the remaining list. -/
def tierLoop (isLong : Bool) (entry hw upnl : ℚ) (p2trig : ℤ) :
    ℕ → List Tier → ScanSt → ScanSt
  | _, [], st => st
  | i, t :: ts, st =>
    if okAdvance st.tierIdx i && decide (upnl ≥ t.triggerPct) then
      let st1 : ScanSt :=
        { tierIdx := some (i : ℤ),
          tierFloor := some (lockFloor isLong entry hw t.lockPct),
          phase := st.phase, breach := st.breach, changed := true }
      let st2 :=
        if st.phase = 1 ∧ p2trig ≤ (i : ℤ) then
          { st1 with phase := 2, breach := 0 }
        else st1
      tierLoop isLong entry hw upnl p2trig (i + 1) ts st2
    else tierLoop isLong entry hw upnl p2trig (i + 1) ts st

/-- The tier scan of one tick, started from the record's stored tier data. -/
def tierScanOf (s : DslState) (price : ℚ) : ScanSt :=
  tierLoop (isLongOf s) s.entryPrice (hwAfter s price) (upnlPctOf s price)
    (s.phase2TriggerTier.getD 0) 0 s.tiers
    { tierIdx := s.currentTierIndex, tierFloor := s.tierFloorPrice,
      phase := s.phase, breach := s.currentBreachCount, changed := false }

/-- Python list indexing `tiers[i]` for the in-range non-negative indices the
source actually reaches (out of range would raise in Python; modelled as a
zero tier). -/
def tierAt (ts : List Tier) (i : ℤ) : Tier :=
  ts.getD i.toNat { triggerPct := 0, lockPct := 0 }

/-- `state.get("phase2", {}).get("retraceThreshold", 0.05)`. -/
def phase2RetraceOf (s : DslState) : ℚ :=
  ((s.phase2.getD {}).retraceThreshold).getD (1/20)

/-- Phase-2 retrace fraction: the active tier's `retrace` when set, else the
phase-2 default. -/
def retracePhase2Of (s : DslState) (price : ℚ) : ℚ :=
  match (tierScanOf s price).tierIdx with
  | some ti =>
    if 0 ≤ ti then (tierAt s.tiers ti).retrace.getD (phase2RetraceOf s)
    else phase2RetraceOf s
  | none => phase2RetraceOf s

/-- The breach threshold for this tick: phase-1 config in phase 1, else the
tier's `breachesRequired`/`retraceClose`/phase-2 default chain. -/
def breachesNeededOf (s : DslState) (price : ℚ) : ℤ :=
  let p2def := ((s.phase2.getD {}).consecutiveBreachesRequired).getD 2
  if (tierScanOf s price).phase = 1 then s.phase1.consecutiveBreachesRequired
  else
    match (tierScanOf s price).tierIdx with
    | some ti =>
      if 0 ≤ ti then
        (tierAt s.tiers ti).breachesRequired.getD
          ((tierAt s.tiers ti).retraceClose.getD 2)
      else p2def
    | none => p2def

/-- The trailing floor of this tick.  In phase 1 the source divides the raw
stored `retraceThreshold` by leverage with no percent normalisation. -/
def trailingFloorOf (s : DslState) (price : ℚ) : ℚ :=
  let hw := hwAfter s price
  let r :=
    (if (tierScanOf s price).phase = 1 then s.phase1.retraceThreshold
     else retracePhase2Of s price) / s.leverage
  if isLongOf s then roundTo 4 (hw * (1 - r)) else roundTo 4 (hw * (1 + r))

/-- The effective floor used for the breach test this tick. -/
def effectiveFloorOf (s : DslState) (price : ℚ) : ℚ :=
  let tr := trailingFloorOf s price
  if (tierScanOf s price).phase = 1 then
    if isLongOf s then max (reconciledFloor s) tr
    else min (reconciledFloor s) tr
  else
    if isLongOf s then max ((tierScanOf s price).tierFloor.getD 0) tr
    else
      match (tierScanOf s price).tierFloor with
      | none => tr
      | some x => if x = 0 then tr else min x tr

/-- `state.get("stagnation", {})` with field defaults. -/
def stagEnabledOf (s : DslState) : Bool := ((s.stagnation.getD {}).enabled).getD true

/-- Stagnation `minROE` (default 8.0). -/
def stagMinROEOf (s : DslState) : ℚ := ((s.stagnation.getD {}).minROE).getD 8

/-- Stagnation `staleHours` (default 1.0). -/
def stagStaleHoursOf (s : DslState) : ℚ := ((s.stagnation.getD {}).staleHours).getD 1

/-- Stagnation `priceRangePct` (default 1.0). -/
def stagRangePctOf (s : DslState) : ℚ := ((s.stagnation.getD {}).priceRangePct).getD 1

/-- `stag_hours_stale`: hours since the (post-update) high-water timestamp,
computed only under the enabled/ROE guard, else left at 0. -/
def stagHoursStaleOf (s : DslState) (price now : ℚ) : ℚ :=
  if stagEnabledOf s && decide (upnlPctOf s price ≥ stagMinROEOf s) then
    now - hwTsAfter s price now
  else 0

/-- The stagnation take-profit trigger of this tick. -/
def stagnationTriggeredOf (s : DslState) (price now : ℚ) : Bool :=
  stagEnabledOf s && decide (upnlPctOf s price ≥ stagMinROEOf s) &&
  decide (stagHoursStaleOf s price now ≥ stagStaleHoursOf s) &&
  decide (hwAfter s price > 0) &&
  decide (|price - hwAfter s price| / hwAfter s price * 100 ≤ stagRangePctOf s)

/-- `elapsed_minutes` since `createdAt` (0 when `createdAt` is absent). -/
def elapsedMinutesOf (s : DslState) (now : ℚ) : ℚ :=
  match s.createdAt with
  | some c => (now - c) * 60
  | none => 0

/-- The tracked peak ROE after folding in this tick's ROE
(`peak_roe = state.get("peakROE", upnl_pct)`, then max with current). -/
def peakTrackedOf (s : DslState) (price : ℚ) : ℚ :=
  let u := upnlPctOf s price
  let p0 := s.peakROE.getD u
  if u > p0 then u else p0

/-- The `peakROE` field written back by this tick (only written inside the
phase-1/elapsed guard, and only on improvement). -/
def peakROEAfter (s : DslState) (price now : ℚ) : Option ℚ :=
  if (tierScanOf s price).phase = 1 ∧ elapsedMinutesOf s now > 0 then
    let u := upnlPctOf s price
    let p0 := s.peakROE.getD u
    if u > p0 then some u else s.peakROE
  else s.peakROE

/-- The phase-1 autocut reason (some ⟺ the autocut fires): 90-minute hard
cap, else 45-minute weak-peak early cut. -/
def phase1AutocutReasonOf (s : DslState) (price now : ℚ) : Option String :=
  let e := elapsedMinutesOf s now
  if (tierScanOf s price).phase = 1 ∧ e > 0 then
    if e ≥ 90 then
      some ("Phase 1 timeout: " ++
        (toString (roundQ e) ++ "min, ROE never hit Tier 1 (5%)"))
    else
      if e ≥ 45 ∧ peakTrackedOf s price < 3 ∧
          upnlPctOf s price < peakTrackedOf s price then
        some ("Weak peak early cut: " ++
          (toString (roundQ e) ++ ("min, peak ROE " ++
            (qStr (roundTo 1 (peakTrackedOf s price)) ++ "%, now declining"))))
      else none
  else none

/-- The phase-1 autocut flag of this tick. -/
def phase1AutocutOf (s : DslState) (price now : ℚ) : Bool :=
  (phase1AutocutReasonOf s price now).isSome

/-- The breach test of this tick (`price <= floor` for LONG, mirrored). -/
def breachedOf (s : DslState) (price : ℚ) : Bool :=
  if isLongOf s then decide (price ≤ effectiveFloorOf s price)
  else decide (price ≥ effectiveFloorOf s price)

/-- The breach counter after this tick: increment on breach, else reset to 0
(`hard`) or decrement floored at 0 (`soft`). -/
def breachCountAfter (s : DslState) (price : ℚ) : ℤ :=
  if breachedOf s price then (tierScanOf s price).breach + 1
  else if s.breachDecay == "soft" then max 0 ((tierScanOf s price).breach - 1)
  else 0

/-- The aggregated close decision of this tick. -/
def shouldCloseOf (s : DslState) (price now : ℚ) : Bool :=
  decide (breachCountAfter s price ≥ breachesNeededOf s price) ||
  s.pendingClose || stagnationTriggeredOf s price now ||
  phase1AutocutOf s price now

/-- The close reason selected with priority stagnation > phase-1 autocut >
breach (only meaningful when the close decision is positive). -/
def closeReasonOf (s : DslState) (price now : ℚ) : String :=
  if stagnationTriggeredOf s price now then
    "Stagnation TP: ROE " ++
      (qStr (roundTo 1 (upnlPctOf s price)) ++ ("%, stale " ++
        (qStr (roundTo 1 (stagHoursStaleOf s price now)) ++ "h")))
  else
    match phase1AutocutReasonOf s price now with
    | some r => r
    | none =>
      "DSL breach: Phase " ++
        (toString (tierScanOf s price).phase ++ (", " ++
          (toString (breachCountAfter s price) ++ ("/" ++
            (toString (breachesNeededOf s price) ++ (", price " ++
              (qStr price ++ (", floor " ++
                qStr (effectiveFloorOf s price)))))))))

/-- Outcome of one attempt of the close collaborator: an exception, or a
response with its exit code and the substring facts the source tests on the
response text (`"CLOSE_NO_POSITION" in text`, `"error" in text.lower()`). -/
inductive CloseOutcome where
  | exc (msg : String)
  | resp (returncode : ℤ) (hasNoPosition : Bool) (hasErrorText : Bool)
      (text : String)
deriving DecidableEq

/-- The retry loop of `close_position` over the remaining attempt indices;
returns (success, result text, attempts made). -/
def closeLoop (resp : ℕ → CloseOutcome) :
    List ℕ → String → ℕ → Bool × String × ℕ
  | [], lastErr, used => (false, lastErr, used)
  | a :: rest, _, used =>
    match resp a with
    | .exc m =>
      closeLoop resp rest
        ("error_attempt_" ++ (toString (a + 1) ++ (": " ++ m))) (used + 1)
    | .resp rc noPos hasErr txt =>
      if rc == 0 && (!hasErr || noPos) then
        (true, if noPos then "position_already_closed" else txt, used + 1)
      else
        closeLoop resp rest
          ("api_error_attempt_" ++ (toString (a + 1) ++ (": " ++ txt)))
          (used + 1)
  termination_by l => l.length

/-- `close_position` of dsl-combined.py: two attempts with retry,
`CLOSE_NO_POSITION` treated as idempotent success. -/
def close_position (resp : ℕ → CloseOutcome) : Bool × String × ℕ :=
  closeLoop resp [0, 1] "" 0

/-- The per-tick report (the fields of the source's result dict used by the
claims, plus close bookkeeping). -/
structure TickResult where
  floor : ℚ
  trailingFloor : ℚ
  breached : Bool
  breachCount : ℤ
  breachesNeeded : ℤ
  stagnationTriggered : Bool
  phase1Autocut : Bool
  shouldClose : Bool
  closed : Bool
  closeAttempted : Bool
  closeReason : Option String
  closeResult : Option String
  attemptsUsed : ℕ
  tierChanged : Bool
deriving DecidableEq

/-- One evaluation tick of `process_position` (dsl-combined.py) on a record
with a successfully fetched price: reconcile the absolute floor, update high
water, scan tiers, compute the effective floor, evaluate the stagnation and
phase-1-timeout triggers, update the breach counter, and execute the close
decision. -/
def process_position (s : DslState) (price now : ℚ)
    (resp : ℕ → CloseOutcome) : DslState × TickResult :=
  let scan := tierScanOf s price
  let eff := effectiveFloorOf s price
  let bc := breachCountAfter s price
  let sc := shouldCloseOf s price now
  let reason := closeReasonOf s price now
  let s1 : DslState :=
    { s with
      phase1 := { s.phase1 with absoluteFloor := some (reconciledFloor s) },
      highWaterPrice := hwAfter s price,
      hwTimestamp := some (hwTsAfter s price now),
      currentTierIndex := scan.tierIdx,
      tierFloorPrice := scan.tierFloor,
      phase := scan.phase,
      currentBreachCount := bc,
      floorPrice := roundTo 4 eff,
      peakROE := peakROEAfter s price now,
      lastCheck := some now,
      lastPrice := some price }
  let attempt := sc && (s.wallet != "")
  let cres := if attempt then close_position resp else (false, "", 0)
  let s2 :=
    if attempt then
      if cres.1 then
        { s1 with
          active := false, pendingClose := false, closedAt := some now,
          closeReason := some
            (if strContainsB cres.2.1 "position_already_closed" then
              "position_already_closed"
            else reason) }
      else { s1 with pendingClose := true }
    else s1
  (s2,
    { floor := eff,
      trailingFloor := trailingFloorOf s price,
      breached := breachedOf s price,
      breachCount := bc,
      breachesNeeded := breachesNeededOf s price,
      stagnationTriggered := stagnationTriggeredOf s price now,
      phase1Autocut := phase1AutocutOf s price now,
      shouldClose := sc,
      closed := attempt && cres.1,
      closeAttempted := attempt,
      closeReason := if sc then some reason else none,
      closeResult := if attempt then some cres.2.1 else none,
      attemptsUsed := cres.2.2,
      tierChanged := scan.changed })

/-- One orchestrator input for one record: the resolved price (none = fetch
failure), the wall clock, and the close collaborator. -/
structure OrchInput where
  price : Option ℚ
  now : ℚ
  closeResp : ℕ → CloseOutcome

/-- Per-record bookkeeping of one orchestrator iteration. -/
structure OrchInfo where
  skipped : Bool
  fetchFailed : Bool
  deactivatedByFetch : Bool
  closeAttempted : Bool
  result : Option TickResult

/-- One iteration of the dsl-combined.py main loop for one record: skip
records that are neither active nor pending close; on fetch failure count and
possibly fail-safe deactivate; on success reset the failure counter and run
`process_position`. -/
def orchTick (s : DslState) (inp : OrchInput) : DslState × OrchInfo :=
  if !s.active && !s.pendingClose then
    (s, { skipped := true, fetchFailed := false, deactivatedByFetch := false,
          closeAttempted := false, result := none })
  else
    match inp.price with
    | none =>
      let fails := s.consecutiveFetchFailures + 1
      let deact := decide (fails ≥ s.maxFetchFailures.getD 10)
      let s' :=
        { s with
          consecutiveFetchFailures := fails,
          lastCheck := some inp.now,
          active := if deact then false else s.active,
          closeReason :=
            if deact then
              some ("Auto-deactivated: " ++
                (toString fails ++ (" " ++ "consecutive fetch failures")))
            else s.closeReason }
      (s', { skipped := false, fetchFailed := true,
             deactivatedByFetch := deact, closeAttempted := false,
             result := none })
    | some p =>
      let pr := process_position { s with consecutiveFetchFailures := 0 }
        p inp.now inp.closeResp
      (pr.1, { skipped := false, fetchFailed := false,
               deactivatedByFetch := false,
               closeAttempted := pr.2.closeAttempted,
               result := some pr.2 })

/-- Run a sequence of orchestrator iterations on one record. -/
def runOrch (s : DslState) (l : List OrchInput) : DslState :=
  l.foldl (fun st i => (orchTick st i).1) s

/-- A record is picked up by the main loop iff it is active or pending
close. -/
def eligible (s : DslState) : Prop := s.active = true ∨ s.pendingClose = true

/-- The record was picked up (not skipped) at every step of the run. -/
def allProcessed : DslState → List OrchInput → Prop
  | _, [] => True
  | s, i :: t => eligible s ∧ allProcessed (orchTick s i).1 t

/-- An input whose price fetch failed. -/
def isFailI (i : OrchInput) : Bool := i.price.isNone

/-- The number of fetch failures since the last successful fetch in a run
(= the length of the maximal all-failure suffix). -/
def failuresSinceSuccess (l : List OrchInput) : ℕ :=
  (l.reverse.takeWhile isFailI).length

/-- The last (hence highest-index) tier at position `≥ i` that clears the
skip test against the fixed base index `b` and whose `triggerPct` is met or
exceeded by `upnl`.  Since tier positions increase along the list, this is
the tier the scan loop ends on. -/
def bestQual (upnl : ℚ) (b : Option ℤ) : ℕ → List Tier → Option (ℕ × Tier)
  | _, [] => none
  | i, t :: ts =>
    let rest := bestQual upnl b (i + 1) ts
    if okAdvance b i && decide (upnl ≥ t.triggerPct) then
      match rest with
      | some r => some r
      | none => some (i, t)
    else rest

theorem bestQual_ge (u : ℚ) (b : Option ℤ) :
    ∀ (ts : List Tier) (i h : ℕ) (t : Tier),
      bestQual u b i ts = some (h, t) → i ≤ h := by
  intro ts
  induction ts with
  | nil => intro i h t hE; simp [bestQual] at hE
  | cons hd tl ih =>
    intro i h t hE
    simp only [bestQual] at hE
    by_cases hc : (okAdvance b i && decide (u ≥ hd.triggerPct)) = true
    · rw [if_pos hc] at hE
      cases hR : bestQual u b (i + 1) tl with
      | none =>
        rw [hR] at hE
        simp only [Option.some.injEq, Prod.mk.injEq] at hE
        omega
      | some r =>
        rw [hR] at hE
        simp only [Option.some.injEq] at hE
        subst hE
        have := ih (i + 1) h t hR
        omega
    · rw [if_neg hc] at hE
      have := ih (i + 1) h t hE
      omega

theorem bestQual_congr (u : ℚ) (b b' : Option ℤ) :
    ∀ (ts : List Tier) (i : ℕ),
      (∀ j, i ≤ j → okAdvance b j = okAdvance b' j) →
      bestQual u b i ts = bestQual u b' i ts := by
  intro ts
  induction ts with
  | nil => intro i _; rfl
  | cons hd tl ih =>
    intro i h
    simp only [bestQual]
    rw [h i (le_refl i), ih (i + 1) (fun j hj => h j (by omega))]

theorem okAdvance_true_of (b : Option ℤ) (i j : ℕ) (hij : i < j)
    (hb : okAdvance b i = true) : okAdvance b j = true := by
  cases b with
  | none => rfl
  | some p =>
    simp only [okAdvance, decide_eq_true_eq] at hb ⊢
    omega

/-- The phase-transition condition of a scan: the loop enters phase 2 iff it
started in phase 1 and some advancement reaches the phase-2 trigger tier,
which happens iff the final (highest) advancement does. -/
def transCond (phase p2trig : ℤ) (B : Option (ℕ × Tier)) : Bool :=
  phase == 1 &&
    (match B with
     | some (h, _) => decide (p2trig ≤ (h : ℤ))
     | none => false)

theorem tierLoop_spec (isLong : Bool) (entry hw u : ℚ) (trig : ℤ) :
    ∀ (ts : List Tier) (i : ℕ) (st : ScanSt),
      tierLoop isLong entry hw u trig i ts st =
        { tierIdx :=
            match bestQual u st.tierIdx i ts with
            | some (h, _) => some ((h : ℤ))
            | none => st.tierIdx,
          tierFloor :=
            match bestQual u st.tierIdx i ts with
            | some (_, t) => some (lockFloor isLong entry hw t.lockPct)
            | none => st.tierFloor,
          phase :=
            if transCond st.phase trig (bestQual u st.tierIdx i ts) then 2
            else st.phase,
          breach :=
            if transCond st.phase trig (bestQual u st.tierIdx i ts) then 0
            else st.breach,
          changed := st.changed || (bestQual u st.tierIdx i ts).isSome } := by
  intro ts
  induction ts with
  | nil =>
    intro i st
    simp [tierLoop, bestQual, transCond]
  | cons hd tl ih =>
    intro i st
    simp only [tierLoop, bestQual]
    by_cases hc : (okAdvance st.tierIdx i && decide (u ≥ hd.triggerPct)) = true
    · simp only [hc, if_true]
      have hcAdv : okAdvance st.tierIdx i = true := by
        have h' := hc
        simp only [Bool.and_eq_true] at h'
        exact h'.1
      have hcong :
          bestQual u (some ((i : ℤ))) (i + 1) tl =
            bestQual u st.tierIdx (i + 1) tl := by
        refine bestQual_congr u _ _ tl (i + 1) (fun j hj => ?_)
        have h1 : okAdvance (some ((i : ℤ))) j = true := by
          simp only [okAdvance, decide_eq_true_eq]
          omega
        have h2 : okAdvance st.tierIdx j = true :=
          okAdvance_true_of st.tierIdx i j (by omega) hcAdv
        rw [h1, h2]
      by_cases hp : (st.phase = 1 ∧ trig ≤ ((i : ℤ)))
      · rw [if_pos hp, ih]
        cases hR : bestQual u st.tierIdx (i + 1) tl with
        | none =>
          simp only [hcong, hR]
          simp only [ScanSt.mk.injEq]
          refine ⟨by trivial, by trivial, ?_, ?_, by simp⟩
          · simp [transCond, hp.1, hp.2]
          · simp [transCond, hp.1, hp.2]
        | some r =>
          obtain ⟨h, t⟩ := r
          have hih : (i : ℤ) < (h : ℤ) := by
            have := bestQual_ge u st.tierIdx tl (i + 1) h t hR
            omega
          have htr : trig ≤ (h : ℤ) := le_trans hp.2 (le_of_lt hih)
          simp only [hcong, hR]
          simp only [ScanSt.mk.injEq]
          refine ⟨by trivial, by trivial, ?_, ?_, by simp⟩
          · simp [transCond, hp.1, htr]
          · simp [transCond, hp.1, htr]
      · rw [if_neg hp, ih]
        cases hR : bestQual u st.tierIdx (i + 1) tl with
        | none =>
          simp only [hcong, hR]
          simp only [ScanSt.mk.injEq]
          refine ⟨by trivial, by trivial, ?_, ?_, by simp⟩
          · simp only [transCond]
            by_cases h1 : st.phase = 1
            · have h2 : ¬ trig ≤ ((i : ℤ)) := fun hh => hp ⟨h1, hh⟩
              simp [h1, h2]
            · simp [h1]
          · simp only [transCond]
            by_cases h1 : st.phase = 1
            · have h2 : ¬ trig ≤ ((i : ℤ)) := fun hh => hp ⟨h1, hh⟩
              simp [h1, h2]
            · simp [h1]
        | some r =>
          obtain ⟨h, t⟩ := r
          simp only [hcong, hR]
          simp only [ScanSt.mk.injEq]
          exact ⟨by trivial, by trivial, by trivial, by trivial, by simp⟩
    · rw [Bool.not_eq_true] at hc
      simp only [hc, Bool.false_eq_true, if_false]
      exact ih (i + 1) st

theorem bestQual_some_eq (u : ℚ) (p : ℤ) :
    ∀ (ts : List Tier) (i : ℕ),
      bestQual u (some p) i ts =
        match bestQual u none i ts with
        | some (h, t) => if p < (h : ℤ) then some (h, t) else none
        | none => none := by
  intro ts
  induction ts with
  | nil => intro i; rfl
  | cons hd tl ih =>
    intro i
    simp only [bestQual, ih (i + 1)]
    by_cases hq : u ≥ hd.triggerPct
    · simp only [decide_eq_true hq, Bool.and_true]
      cases hR : bestQual u none (i + 1) tl with
      | none =>
        simp only [okAdvance]
        by_cases hpi : p < ((i : ℤ))
        · simp [hpi]
        · simp [hpi]
      | some r =>
        obtain ⟨h, t⟩ := r
        have hgt : i + 1 ≤ h := bestQual_ge u none tl (i + 1) h t hR
        simp only [okAdvance]
        by_cases hpi : p < ((i : ℤ))
        · have hph : p < ((h : ℤ)) := by omega
          simp [hpi, hph]
        · simp [hpi]
    · simp only [decide_eq_false hq, Bool.and_false, Bool.false_eq_true,
        if_false]

theorem bestQual_none_spec (u : ℚ) :
    ∀ (ts : List Tier) (i : ℕ),
      (∀ h t, bestQual u none i ts = some (h, t) →
          i ≤ h ∧ h - i < ts.length ∧
          ts.getD (h - i) { triggerPct := 0, lockPct := 0 } = t ∧
          u ≥ t.triggerPct ∧
          (∀ j, i ≤ j → j - i < ts.length →
            u ≥ (ts.getD (j - i) { triggerPct := 0, lockPct := 0 }).triggerPct →
            j ≤ h)) ∧
      (bestQual u none i ts = none →
        ∀ j, i ≤ j → j - i < ts.length →
          ¬ u ≥ (ts.getD (j - i) { triggerPct := 0, lockPct := 0 }).triggerPct) := by
  intro ts
  induction ts with
  | nil =>
    intro i
    constructor
    · intro h t hE
      simp [bestQual] at hE
    · intro _ j _ hj
      simp only [List.length_nil] at hj
      omega
  | cons hd tl ih =>
    intro i
    constructor
    · intro h t hE
      simp only [bestQual, okAdvance, Bool.true_and] at hE
      by_cases hq : u ≥ hd.triggerPct
      · simp only [decide_eq_true hq, if_true] at hE
        cases hR : bestQual u none (i + 1) tl with
        | none =>
          rw [hR] at hE
          simp only [Option.some.injEq, Prod.mk.injEq] at hE
          obtain ⟨hh, ht⟩ := hE
          subst hh
          subst ht
          refine ⟨le_refl i, by simp, by simp, hq, ?_⟩
          intro j hij hjlen hqual
          by_cases hji : j = i
          · omega
          · exfalso
            have hj1 : i + 1 ≤ j := by omega
            have hidx : j - i = (j - (i + 1)) + 1 := by omega
            rw [hidx, List.getD_cons_succ] at hqual
            exact (ih (i + 1)).2 hR j hj1 (by simp at hjlen ⊢; omega) hqual
        | some r =>
          obtain ⟨h', t'⟩ := r
          rw [hR] at hE
          simp only [Option.some.injEq, Prod.mk.injEq] at hE
          obtain ⟨hh, ht⟩ := hE
          rw [hh, ht] at hR
          obtain ⟨h1, h2, h3, h4, h5⟩ := (ih (i + 1)).1 h t hR
          have hidx : h - i = (h - (i + 1)) + 1 := by omega
          refine ⟨by omega, by simp; omega, ?_, h4, ?_⟩
          · rw [hidx, List.getD_cons_succ]
            exact h3
          · intro j hij hjlen hqual
            by_cases hji : j = i
            · omega
            · have hj1 : i + 1 ≤ j := by omega
              have hidx2 : j - i = (j - (i + 1)) + 1 := by omega
              rw [hidx2, List.getD_cons_succ] at hqual
              exact h5 j hj1 (by simp at hjlen ⊢; omega) hqual
      · simp only [decide_eq_false hq, Bool.false_eq_true, if_false] at hE
        obtain ⟨h1, h2, h3, h4, h5⟩ := (ih (i + 1)).1 h t hE
        have hidx : h - i = (h - (i + 1)) + 1 := by omega
        refine ⟨by omega, by simp; omega, ?_, h4, ?_⟩
        · rw [hidx, List.getD_cons_succ]
          exact h3
        · intro j hij hjlen hqual
          by_cases hji : j = i
          · exfalso
            subst hji
            simp only [Nat.sub_self, List.getD_cons_zero] at hqual
            exact hq hqual
          · have hj1 : i + 1 ≤ j := by omega
            have hidx2 : j - i = (j - (i + 1)) + 1 := by omega
            rw [hidx2, List.getD_cons_succ] at hqual
            exact h5 j hj1 (by simp at hjlen ⊢; omega) hqual
    · intro hE j hij hjlen hqual
      simp only [bestQual, okAdvance, Bool.true_and] at hE
      by_cases hq : u ≥ hd.triggerPct
      · simp only [decide_eq_true hq, if_true] at hE
        cases hR : bestQual u none (i + 1) tl with
        | none =>
          rw [hR] at hE
          simp at hE
        | some r =>
          rw [hR] at hE
          simp at hE
      · simp only [decide_eq_false hq, Bool.false_eq_true, if_false] at hE
        by_cases hji : j = i
        · subst hji
          simp only [Nat.sub_self, List.getD_cons_zero] at hqual
          exact hq hqual
        · have hj1 : i + 1 ≤ j := by omega
          have hidx : j - i = (j - (i + 1)) + 1 := by omega
          rw [hidx, List.getD_cons_succ] at hqual
          exact (ih (i + 1)).2 hE j hj1 (by simp at hjlen ⊢; omega) hqual

theorem process_result_floor (s : DslState) (price now : ℚ)
    (resp : ℕ → CloseOutcome) :
    (process_position s price now resp).2.floor = effectiveFloorOf s price := rfl

theorem process_result_stag (s : DslState) (price now : ℚ)
    (resp : ℕ → CloseOutcome) :
    (process_position s price now resp).2.stagnationTriggered =
      stagnationTriggeredOf s price now := rfl

theorem process_result_autocut (s : DslState) (price now : ℚ)
    (resp : ℕ → CloseOutcome) :
    (process_position s price now resp).2.phase1Autocut =
      phase1AutocutOf s price now := rfl

theorem process_result_shouldClose (s : DslState) (price now : ℚ)
    (resp : ℕ → CloseOutcome) :
    (process_position s price now resp).2.shouldClose =
      shouldCloseOf s price now := rfl

theorem process_result_closeReason (s : DslState) (price now : ℚ)
    (resp : ℕ → CloseOutcome) :
    (process_position s price now resp).2.closeReason =
      (if shouldCloseOf s price now then some (closeReasonOf s price now)
       else none) := rfl

theorem process_state_phase (s : DslState) (price now : ℚ)
    (resp : ℕ → CloseOutcome) :
    ((process_position s price now resp).1).phase = (tierScanOf s price).phase := by
  simp only [process_position]
  split <;> first | rfl | (split <;> rfl)

theorem process_state_absFloor (s : DslState) (price now : ℚ)
    (resp : ℕ → CloseOutcome) :
    ((process_position s price now resp).1).phase1.absoluteFloor =
      some (reconciledFloor s) := by
  simp only [process_position]
  split <;> first | rfl | (split <;> rfl)

theorem process_state_tierIdx (s : DslState) (price now : ℚ)
    (resp : ℕ → CloseOutcome) :
    ((process_position s price now resp).1).currentTierIndex =
      (tierScanOf s price).tierIdx := by
  simp only [process_position]
  split <;> first | rfl | (split <;> rfl)

theorem process_state_tierFloor (s : DslState) (price now : ℚ)
    (resp : ℕ → CloseOutcome) :
    ((process_position s price now resp).1).tierFloorPrice =
      (tierScanOf s price).tierFloor := by
  simp only [process_position]
  split <;> first | rfl | (split <;> rfl)

theorem process_state_breach (s : DslState) (price now : ℚ)
    (resp : ℕ → CloseOutcome) :
    ((process_position s price now resp).1).currentBreachCount =
      breachCountAfter s price := by
  simp only [process_position]
  split <;> first | rfl | (split <;> rfl)

theorem process_state_cff (s : DslState) (price now : ℚ)
    (resp : ℕ → CloseOutcome) :
    ((process_position s price now resp).1).consecutiveFetchFailures =
      s.consecutiveFetchFailures := by
  simp only [process_position]
  split <;> first | rfl | (split <;> rfl)

theorem process_state_maxFF (s : DslState) (price now : ℚ)
    (resp : ℕ → CloseOutcome) :
    ((process_position s price now resp).1).maxFetchFailures =
      s.maxFetchFailures := by
  simp only [process_position]
  split <;> first | rfl | (split <;> rfl)

theorem eligible_guard (s : DslState) (h : eligible s) :
    (!s.active && !s.pendingClose) = false := by
  rcases h with h | h <;> simp [h]

theorem orchTick_skip (s : DslState) (inp : OrchInput) (h1 : s.active = false)
    (h2 : s.pendingClose = false) :
    orchTick s inp =
      (s, { skipped := true, fetchFailed := false, deactivatedByFetch := false,
            closeAttempted := false, result := none }) := by
  simp [orchTick, h1, h2]

theorem orchTick_fail (s : DslState) (inp : OrchInput) (h : eligible s)
    (hp : inp.price = none) :
    orchTick s inp =
      ({ s with
          consecutiveFetchFailures := s.consecutiveFetchFailures + 1,
          lastCheck := some inp.now,
          active :=
            if decide (s.consecutiveFetchFailures + 1 ≥ s.maxFetchFailures.getD 10)
            then false else s.active,
          closeReason :=
            if decide (s.consecutiveFetchFailures + 1 ≥ s.maxFetchFailures.getD 10)
            then
              some ("Auto-deactivated: " ++
                (toString (s.consecutiveFetchFailures + 1) ++
                  (" " ++ "consecutive fetch failures")))
            else s.closeReason },
       { skipped := false, fetchFailed := true,
         deactivatedByFetch :=
           decide (s.consecutiveFetchFailures + 1 ≥ s.maxFetchFailures.getD 10),
         closeAttempted := false, result := none }) := by
  simp only [orchTick, eligible_guard s h, Bool.false_eq_true, if_false, hp]

theorem orchTick_success (s : DslState) (inp : OrchInput) (p : ℚ)
    (h : eligible s) (hp : inp.price = some p) :
    orchTick s inp =
      ((process_position { s with consecutiveFetchFailures := 0 }
          p inp.now inp.closeResp).1,
       { skipped := false, fetchFailed := false, deactivatedByFetch := false,
         closeAttempted :=
           (process_position { s with consecutiveFetchFailures := 0 }
             p inp.now inp.closeResp).2.closeAttempted,
         result :=
           some (process_position { s with consecutiveFetchFailures := 0 }
             p inp.now inp.closeResp).2 }) := by
  simp only [orchTick, eligible_guard s h, Bool.false_eq_true, if_false, hp]

/-- Specification-side retrace price `(retraceThresholdPct/100) / leverage`:
the stored threshold read as a percentage when `> 1` (the reconciler's own
normalisation) and as a decimal fraction otherwise. -/
def specRetracePrice (rt lev : ℚ) : ℚ :=
  (if rt > 1 then rt else rt * 100) / 100 / lev

/-- The phase-1 effective floor exactly as claim C1 words it:
`max(absoluteFloor, highWater × (1 − retracePrice))` for LONG (min/+ for
SHORT) with the normalised `retracePrice = (retraceThresholdPct/100)/leverage`. -/
def claimEffFloorP1 (s : DslState) (price : ℚ) : ℚ :=
  let hw := hwAfter s price
  let rp := specRetracePrice s.phase1.retraceThreshold s.leverage
  if isLongOf s then max (reconciledFloor s) (hw * (1 - rp))
  else min (reconciledFloor s) (hw * (1 + rp))

/-- The phase-1 timeout trigger exactly as claim C6 words it: elapsed ≥ 90
minutes, or elapsed ≥ 45 minutes and the tracked peak ROE *never exceeded* 3%
(`peak ≤ 3`) and the current ROE is below that peak. -/
def claimAutocutC6 (s : DslState) (price now : ℚ) : Bool :=
  let e := elapsedMinutesOf s now
  decide ((tierScanOf s price).phase = 1) && decide (e > 0) &&
    (decide (e ≥ 90) ||
      (decide (e ≥ 45) && decide (peakTrackedOf s price ≤ 3) &&
        decide (upnlPctOf s price < peakTrackedOf s price)))

/-- The stagnation trigger exactly as claim C7 words it: high-water timestamp
*older than* `staleHours` (strict) and price moved *less than* `priceRangePct`
(strict). -/
def claimStagC7 (s : DslState) (price now : ℚ) : Bool :=
  stagEnabledOf s && decide (upnlPctOf s price ≥ stagMinROEOf s) &&
  decide (now - hwTsAfter s price now > stagStaleHoursOf s) &&
  decide (|price - hwAfter s price| / hwAfter s price * 100 < stagRangePctOf s)

set_option maxRecDepth 100000

/-- Close collaborator that always raises (used on ticks that never reach a
close call). -/
def respX : ℕ → CloseOutcome := fun _ => .exc "transport error"

/-- Close collaborator answering the idempotent no-position signal. -/
def respNoPos : ℕ → CloseOutcome :=
  fun _ => .resp 0 true false "CLOSE_NO_POSITION"

/-- LONG position whose phase-1 `retraceThreshold` is stored in percentage
form (5 = 5% ROE), as the reconciler's own normalisation supports. -/
def sC1 : DslState :=
  { active := true, entryPrice := 100, size := 1, leverage := 5,
    highWaterPrice := 100, hwTimestamp := some 0, phase := 1,
    currentBreachCount := 0,
    phase1 := { retraceThreshold := 5, consecutiveBreachesRequired := 3 } }

/-- Same position with the threshold stored in decimal form (0.05 = 5% ROE). -/
def sC1w : DslState :=
  { active := true, entryPrice := 100, size := 1, leverage := 5,
    highWaterPrice := 100, hwTimestamp := some 0, phase := 1,
    currentBreachCount := 0,
    phase1 := { retraceThreshold := 1/20, consecutiveBreachesRequired := 3 } }

/-- C1: the claim computes the phase-1 trailing floor with the normalised
retrace price `(retraceThresholdPct/100)/leverage`; the source divides the
raw stored threshold by leverage only.  With the threshold stored in
percentage form (5), leverage 5, entry 100 and high water 110, the source's
effective floor is 99 (the trailing component collapses to
`110 × (1 − 5/5) = 0`), while the claim's formula gives
`max(99, 110 × (1 − 0.01)) = 108.9 = 1089/10`. -/
theorem c1_phase1_effective_floor_cex :
    (process_position sC1 110 0 respX).2.floor = 99 ∧
    claimEffFloorP1 sC1 110 = 1089/10 ∧
    (process_position sC1 110 0 respX).2.floor ≠ claimEffFloorP1 sC1 110 := by
  refine ⟨by with_unfolding_all decide, by with_unfolding_all decide,
    by with_unfolding_all decide⟩

/-- C1 (amended): on every evaluation tick that is still in phase 1 after the
tier scan, the reported effective floor equals
`max(reconciledAbsoluteFloor, round₄(highWater × (1 − retraceThreshold/leverage)))`
for LONG (min/`+` for SHORT), where `retraceThreshold` is the *raw* stored
phase-1 threshold (equal to `(retraceThresholdPct/100)` only when the
threshold is stored in decimal form ≤ 1); in particular the effective floor
is never less protective than the reconciled absolute floor. -/
theorem c1_phase1_effective_floor (s : DslState) (price now : ℚ)
    (resp : ℕ → CloseOutcome) (h : (tierScanOf s price).phase = 1) :
    ((process_position s price now resp).2.floor =
      if isLongOf s then
        max (reconciledFloor s)
          (roundTo 4 (hwAfter s price *
            (1 - s.phase1.retraceThreshold / s.leverage)))
      else
        min (reconciledFloor s)
          (roundTo 4 (hwAfter s price *
            (1 + s.phase1.retraceThreshold / s.leverage))))
    ∧ (isLongOf s = true →
        reconciledFloor s ≤ (process_position s price now resp).2.floor)
    ∧ (isLongOf s = false →
        (process_position s price now resp).2.floor ≤ reconciledFloor s) := by
  have key : effectiveFloorOf s price =
      if isLongOf s then
        max (reconciledFloor s)
          (roundTo 4 (hwAfter s price *
            (1 - s.phase1.retraceThreshold / s.leverage)))
      else
        min (reconciledFloor s)
          (roundTo 4 (hwAfter s price *
            (1 + s.phase1.retraceThreshold / s.leverage))) := by
    simp only [effectiveFloorOf, trailingFloorOf, h, if_true]
    by_cases hl : isLongOf s = true
    · simp [hl]
    · simp only [Bool.not_eq_true] at hl
      simp [hl]
  refine ⟨by rw [process_result_floor, key], ?_, ?_⟩
  · intro hl
    rw [process_result_floor, key, if_pos hl]
    exact le_max_left _ _
  · intro hl
    rw [process_result_floor, key, if_neg (by simp [hl])]
    exact min_le_left _ _

/-- C1 witness: with the decimal-form threshold 0.05, leverage 5, entry 100
and high water 110 the amended formula evaluates to
`max(99, round₄(110 × 0.99)) = 108.9`. -/
theorem c1_phase1_effective_floor_witness :
    (tierScanOf sC1w 110).phase = 1 ∧
    (process_position sC1w 110 0 respX).2.floor = 1089/10 := by
  refine ⟨by with_unfolding_all decide, ?_⟩
  rw [(c1_phase1_effective_floor sC1w 110 0 respX
    (by with_unfolding_all decide)).1]
  with_unfolding_all decide

/-- LONG position holding a manually widened stored floor 99.5 (> computed
floor 99). -/
def sC2 : DslState :=
  { active := true, entryPrice := 100, size := 1, leverage := 5,
    highWaterPrice := 100, hwTimestamp := some 0, phase := 1,
    currentBreachCount := 0,
    phase1 := { retraceThreshold := 1/20, consecutiveBreachesRequired := 3,
                absoluteFloor := some (199/2) } }

/-- C2: on every tick the reconciler writes
`phase1.absoluteFloor := min(computedFloor, existingFloor)` for LONG
(`max` for SHORT) when the existing stored floor is positive, and
`computedFloor` when none is set; consequently a stored positive floor is
never replaced by a stricter one. -/
theorem c2_floor_reconciler (s : DslState) (price now : ℚ)
    (resp : ℕ → CloseOutcome) :
    ((process_position s price now resp).1).phase1.absoluteFloor =
        some (reconciledFloor s)
    ∧ (reconciledFloor s =
        if existingFloorOf s > 0 then
          (if isLongOf s then min (correctFloorOf s) (existingFloorOf s)
           else max (correctFloorOf s) (existingFloorOf s))
        else correctFloorOf s)
    ∧ (s.phase1.absoluteFloor = none → reconciledFloor s = correctFloorOf s)
    ∧ (∀ e, s.phase1.absoluteFloor = some e → 0 < e →
        (isLongOf s = true → reconciledFloor s ≤ e) ∧
        (isLongOf s = false → e ≤ reconciledFloor s)) := by
  refine ⟨process_state_absFloor s price now resp, ?_, ?_, ?_⟩
  · unfold reconciledFloor
    by_cases hl : isLongOf s = true
    · by_cases he : existingFloorOf s > 0 <;> simp [hl, he]
    · simp only [Bool.not_eq_true] at hl
      by_cases he : existingFloorOf s > 0 <;> simp [hl, he]
  · intro h0
    unfold reconciledFloor existingFloorOf
    rw [h0]
    simp only [Option.getD_none]
    by_cases hl : isLongOf s = true <;>
      by_cases hc : correctFloorOf s > 0 <;>
        simp [hl, hc]
  · intro e he hpos
    have hex : existingFloorOf s = e := by
      unfold existingFloorOf
      rw [he]
      rfl
    constructor
    · intro hl
      have : reconciledFloor s = min (correctFloorOf s) e := by
        unfold reconciledFloor
        rw [hex]
        simp [hl, hpos]
      rw [this]
      exact min_le_right _ _
    · intro hl
      have : reconciledFloor s = max (correctFloorOf s) e := by
        unfold reconciledFloor
        rw [hex]
        simp [hl, hpos]
      rw [this]
      exact le_max_right _ _

/-- C2 witness: with entry 100, leverage 5, decimal threshold 0.05 the
computed floor is 99; against the stored floor 99.5 the reconciler keeps the
more lenient 99 and never tightens past the stored value. -/
theorem c2_floor_reconciler_witness :
    ((process_position sC2 102 0 respX).1).phase1.absoluteFloor = some 99 ∧
    reconciledFloor sC2 ≤ 199/2 := by
  constructor
  · rw [(c2_floor_reconciler sC2 102 0 respX).1]
    with_unfolding_all decide
  · exact ((c2_floor_reconciler sC2 102 0 respX).2.2.2 (199/2) rfl
      (by norm_num)).1 (by with_unfolding_all decide)

theorem tierScanOf_eq (s : DslState) (p : ℚ) :
    tierScanOf s p =
      { tierIdx :=
          match bestQual (upnlPctOf s p) s.currentTierIndex 0 s.tiers with
          | some (h, _) => some ((h : ℤ))
          | none => s.currentTierIndex,
        tierFloor :=
          match bestQual (upnlPctOf s p) s.currentTierIndex 0 s.tiers with
          | some (_, t) =>
            some (lockFloor (isLongOf s) s.entryPrice (hwAfter s p) t.lockPct)
          | none => s.tierFloorPrice,
        phase :=
          if transCond s.phase (s.phase2TriggerTier.getD 0)
              (bestQual (upnlPctOf s p) s.currentTierIndex 0 s.tiers) then 2
          else s.phase,
        breach :=
          if transCond s.phase (s.phase2TriggerTier.getD 0)
              (bestQual (upnlPctOf s p) s.currentTierIndex 0 s.tiers) then 0
          else s.currentBreachCount,
        changed :=
          false || (bestQual (upnlPctOf s p) s.currentTierIndex 0 s.tiers).isSome } := by
  unfold tierScanOf
  rw [tierLoop_spec]

/-- C3: after the tier scan, the stored tier index is the highest tier index
whose `triggerPct` is met or exceeded by `upnlPct` when that index is above
the previous index, and is unchanged otherwise; on advancement the tier floor
is recomputed from the advanced-to tier's `lockPct` as
`round₄(entry + (highWater − entry) × lockPct/100)` (mirrored for SHORT); and
the tier index never decreases on any orchestrator tick. -/
theorem c3_tier_ratchet (s : DslState) (inp : OrchInput) (p now : ℚ)
    (resp : ℕ → CloseOutcome) :
    (∀ h t, bestQual (upnlPctOf s p) none 0 s.tiers = some (h, t) →
        h < s.tiers.length ∧
        s.tiers.getD h { triggerPct := 0, lockPct := 0 } = t ∧
        upnlPctOf s p ≥ t.triggerPct ∧
        (∀ j, j < s.tiers.length →
          upnlPctOf s p ≥
            (s.tiers.getD j { triggerPct := 0, lockPct := 0 }).triggerPct →
          j ≤ h))
    ∧ (bestQual (upnlPctOf s p) none 0 s.tiers = none →
        ∀ j, j < s.tiers.length →
          ¬ upnlPctOf s p ≥
            (s.tiers.getD j { triggerPct := 0, lockPct := 0 }).triggerPct)
    ∧ ((process_position s p now resp).1.currentTierIndex =
        match s.currentTierIndex, bestQual (upnlPctOf s p) none 0 s.tiers with
        | prev, none => prev
        | none, some (h, _) => some ((h : ℤ))
        | some pv, some (h, _) =>
          if pv < ((h : ℤ)) then some ((h : ℤ)) else some pv)
    ∧ (∀ h t, bestQual (upnlPctOf s p) none 0 s.tiers = some (h, t) →
        (s.currentTierIndex = none ∨
          ∃ pv, s.currentTierIndex = some pv ∧ pv < ((h : ℤ))) →
        (process_position s p now resp).1.tierFloorPrice =
          some (lockFloor (isLongOf s) s.entryPrice (hwAfter s p) t.lockPct))
    ∧ ((bestQual (upnlPctOf s p) none 0 s.tiers = none ∨
        ∃ pv h t, s.currentTierIndex = some pv ∧
          bestQual (upnlPctOf s p) none 0 s.tiers = some (h, t) ∧
          ((h : ℤ)) ≤ pv) →
        (process_position s p now resp).1.tierFloorPrice = s.tierFloorPrice)
    ∧ (∀ pv, s.currentTierIndex = some pv →
        ∃ q, ((orchTick s inp).1).currentTierIndex = some q ∧ pv ≤ q) := by
  obtain ⟨hmain, hnone⟩ := bestQual_none_spec (upnlPctOf s p) s.tiers 0
  have hmono : ∀ (s' : DslState) (pv : ℤ) (p' : ℚ),
      s'.currentTierIndex = some pv →
      ∃ q, (tierScanOf s' p').tierIdx = some q ∧ pv ≤ q := by
    intro s' pv p' hprev
    rw [tierScanOf_eq, hprev, bestQual_some_eq]
    cases hN : bestQual (upnlPctOf s' p') none 0 s'.tiers with
    | none => exact ⟨pv, rfl, le_refl pv⟩
    | some r =>
      obtain ⟨h, t⟩ := r
      by_cases hlt : pv < ((h : ℤ))
      · exact ⟨(h : ℤ), by simp [hlt], le_of_lt hlt⟩
      · exact ⟨pv, by simp [hlt], le_refl pv⟩
  refine ⟨?_, ?_, ?_, ?_, ?_, ?_⟩
  · intro h t hB
    obtain ⟨-, h2, h3, h4, h5⟩ := hmain h t hB
    rw [Nat.sub_zero] at h2 h3
    refine ⟨h2, h3, h4, fun j hj hq => ?_⟩
    exact h5 j (Nat.zero_le j) (by rwa [Nat.sub_zero]) (by rwa [Nat.sub_zero])
  · intro hB j hj hq
    exact hnone hB j (Nat.zero_le j) (by rwa [Nat.sub_zero]) (by rwa [Nat.sub_zero])
  · rw [process_state_tierIdx, tierScanOf_eq]
    cases hprev : s.currentTierIndex with
    | none =>
      cases hN : bestQual (upnlPctOf s p) none 0 s.tiers with
      | none => rfl
      | some r =>
        obtain ⟨h, t⟩ := r
        rfl
    | some pv =>
      rw [bestQual_some_eq]
      cases hN : bestQual (upnlPctOf s p) none 0 s.tiers with
      | none => rfl
      | some r =>
        obtain ⟨h, t⟩ := r
        by_cases hlt : pv < ((h : ℤ))
        · simp [hlt]
        · simp [hlt]
  · intro h t hB hadv
    rw [process_state_tierFloor, tierScanOf_eq]
    rcases hadv with hprev | ⟨pv, hprev, hlt⟩
    · rw [hprev, hB]
    · rw [hprev, bestQual_some_eq, hB]
      simp [hlt]
  · intro hno
    rw [process_state_tierFloor, tierScanOf_eq]
    rcases hno with hN | ⟨pv, h, t, hprev, hN, hle⟩
    · cases hprev : s.currentTierIndex with
      | none => rw [hN]
      | some pv => rw [bestQual_some_eq, hN]
    · rw [hprev, bestQual_some_eq, hN]
      have hngt : ¬ pv < ((h : ℤ)) := by omega
      simp [hngt]
  · intro pv hprev
    by_cases hel : eligible s
    · cases hip : inp.price with
      | none =>
        rw [orchTick_fail s inp hel hip]
        exact ⟨pv, hprev, le_refl pv⟩
      | some p' =>
        rw [orchTick_success s inp p' hel hip, process_state_tierIdx]
        exact hmono { s with consecutiveFetchFailures := 0 } pv p' hprev
    · have hA : s.active = false := by
        cases h1 : s.active
        · rfl
        · exact absurd (show eligible s from Or.inl h1) hel
      have hP : s.pendingClose = false := by
        cases h1 : s.pendingClose
        · rfl
        · exact absurd (show eligible s from Or.inr h1) hel
      rw [orchTick_skip s inp hA hP]
      exact ⟨pv, hprev, le_refl pv⟩

/-- The spec's scenario position: LONG, entry 100, size 10, leverage 5, one
tier `{triggerPct := 5, lockPct := 50}`. -/
def sC3 : DslState :=
  { active := true, entryPrice := 100, size := 10, leverage := 5,
    highWaterPrice := 100, hwTimestamp := some 0, phase := 1,
    currentBreachCount := 2,
    tiers := [{ triggerPct := 5, lockPct := 50 }],
    phase1 := { retraceThreshold := 1/20, consecutiveBreachesRequired := 3 } }

/-- C3 witness: at price 106 the scenario position advances to tier index 0
and locks `tierFloorPrice = 100 + (106 − 100) × 50/100 = 103`. -/
theorem c3_tier_ratchet_witness :
    (process_position sC3 106 0 respX).1.currentTierIndex = some 0 ∧
    (process_position sC3 106 0 respX).1.tierFloorPrice = some 103 := by
  have h := c3_tier_ratchet sC3 ⟨some 106, 0, respX⟩ 106 0 respX
  constructor
  · rw [h.2.2.1]
    with_unfolding_all decide
  · rw [h.2.2.2.1 0 ⟨5, 50, none, none, none⟩
      (by with_unfolding_all decide) (Or.inl (by with_unfolding_all decide))]
    with_unfolding_all decide

theorem runOrch_cons (s : DslState) (i : OrchInput) (t : List OrchInput) :
    runOrch s (i :: t) = runOrch (orchTick s i).1 t := rfl

theorem tierScan_phase_eq (s' : DslState) (p' : ℚ) :
    (tierScanOf s' p').phase =
      if transCond s'.phase (s'.phase2TriggerTier.getD 0)
          (bestQual (upnlPctOf s' p') s'.currentTierIndex 0 s'.tiers) then 2
      else s'.phase := by
  rw [tierScanOf_eq]

theorem orchTick_phase_cases (s' : DslState) (inp' : OrchInput) :
    ((orchTick s' inp').1).phase = s'.phase ∨
      (s'.phase = 1 ∧ ((orchTick s' inp').1).phase = 2) := by
  by_cases hel : eligible s'
  · cases hip : inp'.price with
    | none =>
      rw [orchTick_fail s' inp' hel hip]
      left
      rfl
    | some p' =>
      rw [orchTick_success s' inp' p' hel hip, process_state_phase]
      set s0 : DslState := { s' with consecutiveFetchFailures := 0 } with hs0
      rw [tierScan_phase_eq s0 p']
      by_cases htc : transCond s0.phase (s0.phase2TriggerTier.getD 0)
          (bestQual (upnlPctOf s0 p') s0.currentTierIndex 0 s0.tiers) = true
      · right
        have hph : s0.phase = 1 := by
          simp only [transCond, Bool.and_eq_true, beq_iff_eq] at htc
          exact htc.1
        exact ⟨hph, by simp [htc]⟩
      · left
        simp only [Bool.not_eq_true] at htc
        simp [htc]
  · have hA : s'.active = false := by
      cases h1 : s'.active
      · rfl
      · exact absurd (show eligible s' from Or.inl h1) hel
    have hP : s'.pendingClose = false := by
      cases h1 : s'.pendingClose
      · rfl
      · exact absurd (show eligible s' from Or.inr h1) hel
    rw [orchTick_skip s' inp' hA hP]
    left
    rfl

/-- C5: `phase` only ever changes from 1 to 2; while in phase 1 a processed
tick ends in phase 2 exactly when the tier scan advances to a tier index
that reaches `phase2TriggerTier` (default 0); the breach counter coming out
of the transitioning scan is 0; and once `phase = 2` no sequence of
orchestrator ticks ever returns it to 1. -/
theorem c5_phase_transition (s : DslState) (inp : OrchInput)
    (l : List OrchInput) (p now : ℚ) (resp : ℕ → CloseOutcome) :
    (((orchTick s inp).1).phase = s.phase ∨
      (s.phase = 1 ∧ ((orchTick s inp).1).phase = 2))
    ∧ (s.phase = 1 →
        ((process_position s p now resp).1.phase = 2 ↔
          (∃ h t, bestQual (upnlPctOf s p) s.currentTierIndex 0 s.tiers =
              some (h, t) ∧ s.phase2TriggerTier.getD 0 ≤ ((h : ℤ)))))
    ∧ (s.phase = 1 → (process_position s p now resp).1.phase = 2 →
        (tierScanOf s p).breach = 0)
    ∧ (s.phase = 2 → (runOrch s l).phase = 2) := by
  refine ⟨orchTick_phase_cases s inp, ?_, ?_, ?_⟩
  · intro h1
    rw [process_state_phase, tierScan_phase_eq]
    cases hB : bestQual (upnlPctOf s p) s.currentTierIndex 0 s.tiers with
    | none =>
      simp only [transCond, h1]
      constructor
      · intro h2
        simp at h2
      · rintro ⟨h, t, hE, -⟩
        exact absurd hE (by simp)
    | some r =>
      obtain ⟨h, t⟩ := r
      simp only [transCond, h1]
      by_cases hge : s.phase2TriggerTier.getD 0 ≤ ((h : ℤ))
      · simp only [decide_eq_true hge]
        constructor
        · intro _
          exact ⟨h, t, rfl, hge⟩
        · intro _
          simp
      · simp only [decide_eq_false hge]
        constructor
        · intro h2
          simp at h2
        · rintro ⟨h', t', hE, hge'⟩
          simp only [Option.some.injEq, Prod.mk.injEq] at hE
          rw [← hE.1] at hge'
          exact absurd hge' hge
  · intro h1 h2
    rw [process_state_phase, tierScan_phase_eq] at h2
    rw [tierScanOf_eq]
    by_cases htc : transCond s.phase (s.phase2TriggerTier.getD 0)
        (bestQual (upnlPctOf s p) s.currentTierIndex 0 s.tiers) = true
    · simp [htc]
    · simp only [Bool.not_eq_true] at htc
      rw [htc] at h2
      simp only [Bool.false_eq_true, if_false] at h2
      rw [h1] at h2
      exact absurd h2 (by decide)
  · intro h2
    induction l generalizing s with
    | nil => exact h2
    | cons i t ihl =>
      rw [runOrch_cons]
      rcases orchTick_phase_cases s i with hsame | ⟨h1', -⟩
      · exact ihl _ (by rw [hsame]; exact h2)
      · rw [h2] at h1'
        exact absurd h1' (by decide)

/-- C5 witness: the scenario position starts in phase 1 and the tick at price
106 advances to tier 0 ≥ trigger tier 0, so the tick ends in phase 2 with the
scan's breach counter reset to 0. -/
theorem c5_phase_transition_witness :
    sC3.phase = 1 ∧ (process_position sC3 106 0 respX).1.phase = 2 ∧
    (tierScanOf sC3 106).breach = 0 := by
  have hthm := c5_phase_transition sC3 ⟨some 106, 0, respX⟩ [] 106 0 respX
  have hph2 : (process_position sC3 106 0 respX).1.phase = 2 :=
    (hthm.2.1 rfl).mpr
      ⟨0, ⟨5, 50, none, none, none⟩, by with_unfolding_all decide, by decide⟩
  exact ⟨rfl, hph2, hthm.2.2.1 rfl hph2⟩

/-- A deactivated record still carrying a pending close obligation and a
manually widened stored floor. -/
def sC4 : DslState :=
  { active := false, pendingClose := true, entryPrice := 100, size := 1,
    leverage := 5, highWaterPrice := 100, hwTimestamp := some 0, phase := 1,
    currentBreachCount := 0,
    phase1 := { retraceThreshold := 1/20, consecutiveBreachesRequired := 3,
                absoluteFloor := some (199/2) } }

/-- An inactive record with no pending close. -/
def sC4w : DslState :=
  { active := false, pendingClose := false, entryPrice := 100, size := 1,
    leverage := 5, highWaterPrice := 100, hwTimestamp := some 0, phase := 1,
    currentBreachCount := 0,
    phase1 := { retraceThreshold := 1/20, consecutiveBreachesRequired := 3 } }

/-- C4: the claim says a record with `active = false` suffers no further
floor mutation, but a record with `active = false` and `pendingClose = true`
is still run through the full pipeline to retry the close: on this tick the
floor reconciler rewrites its stored `phase1.absoluteFloor` from 99.5 to
99. -/
theorem c4_inactive_frame_cex :
    sC4.active = false ∧
    ((orchTick sC4 ⟨some 102, 1, respX⟩).1).phase1.absoluteFloor = some 99 ∧
    sC4.phase1.absoluteFloor = some (199/2) ∧
    ((orchTick sC4 ⟨some 102, 1, respX⟩).1).phase1.absoluteFloor ≠
      sC4.phase1.absoluteFloor := by
  exact ⟨rfl, by with_unfolding_all decide, rfl, by with_unfolding_all decide⟩

/-- C4 (amended): a record is exempt from the tick iff it is neither active
nor pending close; such a record is skipped outright and every field —
audit fields included — is left unchanged.  (A record with `active = false`
but `pendingClose = true` still runs the full pipeline so the close can be
retried, and its floor/tier/breach state is still mutated.) -/
theorem c4_inactive_frame (s : DslState) (inp : OrchInput)
    (h1 : s.active = false) (h2 : s.pendingClose = false) :
    (orchTick s inp).1 = s ∧ (orchTick s inp).2.skipped = true := by
  rw [orchTick_skip s inp h1 h2]
  exact ⟨rfl, rfl⟩

/-- C4 witness: a concrete inactive, non-pending record is returned
untouched. -/
theorem c4_inactive_frame_witness :
    (orchTick sC4w ⟨some 102, 1, respX⟩).1 = sC4w :=
  (c4_inactive_frame sC4w ⟨some 102, 1, respX⟩ rfl rfl).1

theorem phase1Autocut_iff (s : DslState) (price now : ℚ) :
    phase1AutocutOf s price now = true ↔
      ((tierScanOf s price).phase = 1 ∧ 0 < elapsedMinutesOf s now ∧
        (90 ≤ elapsedMinutesOf s now ∨
          (45 ≤ elapsedMinutesOf s now ∧ peakTrackedOf s price < 3 ∧
            upnlPctOf s price < peakTrackedOf s price))) := by
  simp only [phase1AutocutOf, phase1AutocutReasonOf]
  by_cases hg : ((tierScanOf s price).phase = 1 ∧ elapsedMinutesOf s now > 0)
  · rw [if_pos hg]
    by_cases hA : elapsedMinutesOf s now ≥ 90
    · rw [if_pos hA]
      simp only [Option.isSome_some, true_iff]
      exact ⟨hg.1, hg.2, Or.inl hA⟩
    · rw [if_neg hA]
      by_cases hB : (elapsedMinutesOf s now ≥ 45 ∧ peakTrackedOf s price < 3 ∧
          upnlPctOf s price < peakTrackedOf s price)
      · rw [if_pos hB]
        simp only [Option.isSome_some, true_iff]
        exact ⟨hg.1, hg.2, Or.inr hB⟩
      · rw [if_neg hB]
        simp only [Option.isSome_none, Bool.false_eq_true, false_iff]
        rintro ⟨-, -, hAB⟩
        rcases hAB with hA' | hB'
        · exact hA hA'
        · exact hB hB'
  · rw [if_neg hg]
    simp only [Option.isSome_none, Bool.false_eq_true, false_iff]
    rintro ⟨hph, hpos, -⟩
    exact hg ⟨hph, hpos⟩

/-- Phase-1 position whose tracked peak ROE is exactly 3%. -/
def sC6 : DslState :=
  { active := true, entryPrice := 100, size := 1, leverage := 5,
    highWaterPrice := 105, hwTimestamp := some 0, phase := 1,
    currentBreachCount := 0, peakROE := some 3, createdAt := some 0,
    phase1 := { retraceThreshold := 1/20, consecutiveBreachesRequired := 3 } }

/-- Phase-1 position 95 minutes old with a weak peak, matching the spec's
timeout scenario. -/
def sC6w : DslState :=
  { active := true, entryPrice := 100, size := 1, leverage := 5,
    highWaterPrice := 105, hwTimestamp := some 0, phase := 1,
    currentBreachCount := 0, peakROE := some 2, createdAt := some 0,
    phase1 := { retraceThreshold := 1/20, consecutiveBreachesRequired := 3 } }

/-- C6: the claim's weak-peak rule asks that the tracked peak ROE "never
exceeded 3%", i.e. peak ≤ 3; the source requires `peak_roe < 3` strictly.
At 50 minutes elapsed, peak exactly 3 and current ROE 2 the claim's
condition holds but the code does not fire the autocut. -/
theorem c6_phase1_timeout_cex :
    (process_position sC6 (502/5) (5/6) respX).2.phase1Autocut = false ∧
    claimAutocutC6 sC6 (502/5) (5/6) = true := by
  exact ⟨by with_unfolding_all decide, by with_unfolding_all decide⟩

/-- C6 (amended): while the post-scan phase is 1 and the record has a
creation time, the phase-1 timeout fires iff elapsed ≥ 90 minutes, or
elapsed ≥ 45 minutes with the tracked peak ROE *strictly below* 3% and the
current ROE below that peak; when it fires the close decision is positive,
and when the 90-minute rule fires with no simultaneous stagnation trigger
the close reason cites "Phase 1 timeout" (the weak-peak rule instead emits a
"Weak peak early cut" reason, and stagnation takes priority over both). -/
theorem c6_phase1_timeout (s : DslState) (price now : ℚ)
    (resp : ℕ → CloseOutcome) :
    ((process_position s price now resp).2.phase1Autocut = true ↔
      ((tierScanOf s price).phase = 1 ∧ 0 < elapsedMinutesOf s now ∧
        (90 ≤ elapsedMinutesOf s now ∨
          (45 ≤ elapsedMinutesOf s now ∧ peakTrackedOf s price < 3 ∧
            upnlPctOf s price < peakTrackedOf s price))))
    ∧ ((process_position s price now resp).2.phase1Autocut = true →
        (process_position s price now resp).2.shouldClose = true)
    ∧ ((tierScanOf s price).phase = 1 → 90 ≤ elapsedMinutesOf s now →
        stagnationTriggeredOf s price now = false →
        (process_position s price now resp).2.closeReason =
          some ("Phase 1 timeout: " ++
            (toString (roundQ (elapsedMinutesOf s now)) ++
              "min, ROE never hit Tier 1 (5%)"))) := by
  refine ⟨?_, ?_, ?_⟩
  · rw [process_result_autocut]
    exact phase1Autocut_iff s price now
  · intro h
    rw [process_result_autocut] at h
    rw [process_result_shouldClose]
    unfold shouldCloseOf
    simp [h]
  · intro hph hA hstag
    have hac : phase1AutocutOf s price now = true :=
      (phase1Autocut_iff s price now).mpr ⟨hph, by linarith, Or.inl hA⟩
    have hsc : shouldCloseOf s price now = true := by
      unfold shouldCloseOf
      simp [hac]
    rw [process_result_closeReason, if_pos hsc]
    have hreason : phase1AutocutReasonOf s price now =
        some ("Phase 1 timeout: " ++
          (toString (roundQ (elapsedMinutesOf s now)) ++
            "min, ROE never hit Tier 1 (5%)")) := by
      simp only [phase1AutocutReasonOf]
      rw [if_pos ⟨hph, by linarith⟩, if_pos hA]
    unfold closeReasonOf
    simp only [hstag, Bool.false_eq_true, if_false, hreason]

/-- C6 witness: the spec scenario — phase 1, 95 minutes elapsed, peak ROE
2% — fires the hard timeout with reason
"Phase 1 timeout: 95min, ROE never hit Tier 1 (5%)". -/
theorem c6_phase1_timeout_witness :
    (process_position sC6w (501/5) (19/12) respX).2.phase1Autocut = true ∧
    (process_position sC6w (501/5) (19/12) respX).2.shouldClose = true ∧
    (process_position sC6w (501/5) (19/12) respX).2.closeReason =
      some "Phase 1 timeout: 95min, ROE never hit Tier 1 (5%)" := by
  have h := c6_phase1_timeout sC6w (501/5) (19/12) respX
  have h1 : (process_position sC6w (501/5) (19/12) respX).2.phase1Autocut =
      true :=
    h.1.mpr ⟨by with_unfolding_all decide, by with_unfolding_all decide,
      Or.inl (by with_unfolding_all decide)⟩
  refine ⟨h1, h.2.1 h1, ?_⟩
  rw [h.2.2 (by with_unfolding_all decide) (by with_unfolding_all decide)
    (by with_unfolding_all decide)]
  with_unfolding_all decide

theorem stagnation_iff (s : DslState) (price now : ℚ) :
    stagnationTriggeredOf s price now = true ↔
      (stagEnabledOf s = true ∧ stagMinROEOf s ≤ upnlPctOf s price ∧
        stagStaleHoursOf s ≤ now - hwTsAfter s price now ∧
        0 < hwAfter s price ∧
        |price - hwAfter s price| / hwAfter s price * 100 ≤ stagRangePctOf s) := by
  unfold stagnationTriggeredOf stagHoursStaleOf
  by_cases h1 : stagEnabledOf s = true
  · by_cases h2 : upnlPctOf s price ≥ stagMinROEOf s
    · simp only [h1, decide_eq_true h2, Bool.true_and, Bool.and_eq_true,
        decide_eq_true_eq, ge_iff_le, gt_iff_lt, true_and, if_true]
      constructor
      · rintro ⟨⟨ha, hb⟩, hc⟩
        exact ⟨h2, ha, hb, hc⟩
      · rintro ⟨-, ha, hb, hc⟩
        exact ⟨⟨ha, hb⟩, hc⟩
    · simp only [h1, decide_eq_false h2, Bool.true_and, Bool.and_false,
        Bool.false_and, Bool.false_eq_true, false_iff]
      rintro ⟨-, hmin, -⟩
      exact h2 hmin
  · simp only [Bool.not_eq_true] at h1
    simp only [h1, Bool.false_and, Bool.false_eq_true, false_iff]
    rintro ⟨he, -⟩
    exact he

/-- Profitable LONG position whose high water is exactly one hour stale and
whose price sits within the stagnation band. -/
def sC7 : DslState :=
  { active := true, entryPrice := 100, size := 1, leverage := 5,
    highWaterPrice := 110, hwTimestamp := some 0, phase := 1,
    currentBreachCount := 0,
    phase1 := { retraceThreshold := 1/20, consecutiveBreachesRequired := 3 } }

/-- C7: the claim's "older than `staleHours`" and "moved less than
`priceRangePct`" are strict; the source uses inclusive comparisons
(`>= staleHours`, `<= priceRangePct`).  With the high water exactly 1.0 hour
stale (the default threshold) the source fires the stagnation trigger while
the claim's strict condition does not hold. -/
theorem c7_stagnation_cex :
    (process_position sC7 109 1 respX).2.stagnationTriggered = true ∧
    claimStagC7 sC7 109 1 = false := by
  exact ⟨by with_unfolding_all decide, by with_unfolding_all decide⟩

/-- C7 (amended): on every tick — whatever the phase or breach count — the
stagnation trigger fires iff stagnation is enabled, `upnlPct ≥ minROEPct`,
the (post-update) high-water timestamp is *at least* `staleHours` old, the
high-water price is positive, and the price has moved *at most*
`priceRangePct` percent away from the high-water price; when it fires the
close decision is positive and the close reason starts with
"Stagnation TP". -/
theorem c7_stagnation (s : DslState) (price now : ℚ)
    (resp : ℕ → CloseOutcome) :
    ((process_position s price now resp).2.stagnationTriggered = true ↔
      (stagEnabledOf s = true ∧ stagMinROEOf s ≤ upnlPctOf s price ∧
        stagStaleHoursOf s ≤ now - hwTsAfter s price now ∧
        0 < hwAfter s price ∧
        |price - hwAfter s price| / hwAfter s price * 100 ≤ stagRangePctOf s))
    ∧ ((process_position s price now resp).2.stagnationTriggered = true →
        (process_position s price now resp).2.shouldClose = true)
    ∧ ((process_position s price now resp).2.stagnationTriggered = true →
        ∃ rest, (process_position s price now resp).2.closeReason =
          some ("Stagnation TP: ROE " ++ rest)) := by
  refine ⟨?_, ?_, ?_⟩
  · rw [process_result_stag]
    exact stagnation_iff s price now
  · intro h
    rw [process_result_stag] at h
    rw [process_result_shouldClose]
    unfold shouldCloseOf
    simp [h]
  · intro h
    rw [process_result_stag] at h
    have hsc : shouldCloseOf s price now = true := by
      unfold shouldCloseOf
      simp [h]
    rw [process_result_closeReason, if_pos hsc]
    unfold closeReasonOf
    simp only [h, if_true]
    exact ⟨_, rfl⟩

/-- C7 witness: ROE 45% ≥ 8%, high water stale exactly one hour, price 109
within 10/11 % of high water 110 → the trigger fires, the close decision is
positive and the reason starts with "Stagnation TP". -/
theorem c7_stagnation_witness :
    (process_position sC7 109 1 respX).2.stagnationTriggered = true ∧
    (process_position sC7 109 1 respX).2.shouldClose = true ∧
    ∃ rest, (process_position sC7 109 1 respX).2.closeReason =
      some ("Stagnation TP: ROE " ++ rest) := by
  have h := c7_stagnation sC7 109 1 respX
  have h1 : (process_position sC7 109 1 respX).2.stagnationTriggered = true :=
    h.1.mpr ⟨by with_unfolding_all decide, by with_unfolding_all decide,
      by with_unfolding_all decide, by with_unfolding_all decide,
      by with_unfolding_all decide⟩
  exact ⟨h1, h.2.1 h1, h.2.2 h1⟩

theorem strData_append (a b : String) : (a ++ b).data = a.data ++ b.data := by
  cases a
  cases b
  rfl

theorem close_position_noPos (resp : ℕ → CloseOutcome) (e : Bool)
    (txt : String) (h : resp 0 = CloseOutcome.resp 0 true e txt) :
    close_position resp = (true, "position_already_closed", 1) := by
  unfold close_position closeLoop
  rw [h]
  simp

/-- Pending-close position with a wallet, whose close attempt will answer
`CLOSE_NO_POSITION`. -/
def sC8 : DslState :=
  { active := true, pendingClose := true, wallet := "0xabc",
    entryPrice := 100, size := 1, leverage := 5, highWaterPrice := 100,
    hwTimestamp := some 0, phase := 1, currentBreachCount := 0,
    phase1 := { retraceThreshold := 1/20, consecutiveBreachesRequired := 3 } }

/-- C8: a close attempt answered with the `CLOSE_NO_POSITION` signal (exit
code 0) is treated as success on the first attempt — no retry — and the
record ends the tick with `active = false`, `pendingClose = false` and
`closeReason = "position_already_closed"`. -/
theorem c8_idempotent_close (s : DslState) (price now : ℚ)
    (resp : ℕ → CloseOutcome) (e : Bool) (txt : String)
    (hsc : shouldCloseOf s price now = true)
    (hw : (s.wallet != "") = true)
    (hr : resp 0 = CloseOutcome.resp 0 true e txt) :
    (process_position s price now resp).1.active = false ∧
    (process_position s price now resp).1.pendingClose = false ∧
    (process_position s price now resp).1.closeReason =
      some "position_already_closed" ∧
    (process_position s price now resp).2.closed = true ∧
    (process_position s price now resp).2.attemptsUsed = 1 := by
  have hcp := close_position_noPos resp e txt hr
  have hattempt : (shouldCloseOf s price now && (s.wallet != "")) = true := by
    rw [hsc, hw]
    rfl
  have hself : strContainsB "position_already_closed"
      "position_already_closed" = true := by decide
  simp only [process_position, hattempt, if_true, hcp, hself]
  exact ⟨by trivial, by trivial, by trivial, by trivial, by trivial⟩

/-- C8 witness: the concrete pending-close record is finalised as
`position_already_closed` in one attempt. -/
theorem c8_idempotent_close_witness :
    (process_position sC8 102 1 respNoPos).1.active = false ∧
    (process_position sC8 102 1 respNoPos).1.pendingClose = false ∧
    (process_position sC8 102 1 respNoPos).1.closeReason =
      some "position_already_closed" ∧
    (process_position sC8 102 1 respNoPos).2.closed = true ∧
    (process_position sC8 102 1 respNoPos).2.attemptsUsed = 1 :=
  c8_idempotent_close sC8 102 1 respNoPos false "CLOSE_NO_POSITION"
    (by with_unfolding_all decide) (by decide) rfl

/-- C9: on a tick whose price fetch fails, the failure counter is
incremented; once the incremented count reaches `maxFetchFailures`
(default 10) the record is deactivated with a close reason containing
"consecutive fetch failures", and the tick attempts no close and runs no
pipeline at all; below the ceiling the record stays as it was. -/
theorem c9_fetch_failsafe (s : DslState) (now : ℚ)
    (resp : ℕ → CloseOutcome) (h : eligible s) :
    (orchTick s ⟨none, now, resp⟩).1.consecutiveFetchFailures =
      s.consecutiveFetchFailures + 1
    ∧ (orchTick s ⟨none, now, resp⟩).2.closeAttempted = false
    ∧ (orchTick s ⟨none, now, resp⟩).2.result = none
    ∧ (s.maxFetchFailures.getD 10 ≤ s.consecutiveFetchFailures + 1 →
        (orchTick s ⟨none, now, resp⟩).1.active = false ∧
        (orchTick s ⟨none, now, resp⟩).1.closeReason =
          some ("Auto-deactivated: " ++
            (toString (s.consecutiveFetchFailures + 1) ++
              (" " ++ "consecutive fetch failures"))) ∧
        (∃ r, (orchTick s ⟨none, now, resp⟩).1.closeReason = some r ∧
          strContainsP r "consecutive fetch failures"))
    ∧ (s.consecutiveFetchFailures + 1 < s.maxFetchFailures.getD 10 →
        (orchTick s ⟨none, now, resp⟩).1.active = s.active ∧
        (orchTick s ⟨none, now, resp⟩).1.closeReason = s.closeReason) := by
  rw [orchTick_fail s ⟨none, now, resp⟩ h rfl]
  refine ⟨rfl, rfl, rfl, ?_, ?_⟩
  · intro hge
    have hd : decide (s.consecutiveFetchFailures + 1 ≥
        s.maxFetchFailures.getD 10) = true := decide_eq_true hge
    refine ⟨by simp [hd], by simp [hd], ?_⟩
    refine ⟨"Auto-deactivated: " ++
      (toString (s.consecutiveFetchFailures + 1) ++
        (" " ++ "consecutive fetch failures")), by simp [hd], ?_⟩
    refine ⟨"Auto-deactivated: ".data ++
      ((toString (s.consecutiveFetchFailures + 1)).data ++ " ".data), [], ?_⟩
    simp [strData_append, List.append_assoc]
  · intro hlt
    have hd : decide (s.consecutiveFetchFailures + 1 ≥
        s.maxFetchFailures.getD 10) = false := decide_eq_false (by omega)
    exact ⟨by simp [hd], by simp [hd]⟩

/-- Active record that has already seen 9 consecutive fetch failures. -/
def sC9 : DslState :=
  { active := true, entryPrice := 100, size := 1, leverage := 5,
    highWaterPrice := 100, phase := 1, currentBreachCount := 0,
    consecutiveFetchFailures := 9,
    phase1 := { retraceThreshold := 1/20, consecutiveBreachesRequired := 3 } }

/-- C9 witness: the 10th consecutive failure at the default ceiling
deactivates the record with reason
"Auto-deactivated: 10 consecutive fetch failures" and no close attempt. -/
theorem c9_fetch_failsafe_witness :
    (orchTick sC9 ⟨none, 1, respX⟩).1.consecutiveFetchFailures = 10 ∧
    (orchTick sC9 ⟨none, 1, respX⟩).1.active = false ∧
    (orchTick sC9 ⟨none, 1, respX⟩).1.closeReason =
      some "Auto-deactivated: 10 consecutive fetch failures" ∧
    (orchTick sC9 ⟨none, 1, respX⟩).2.closeAttempted = false := by
  have h := c9_fetch_failsafe sC9 1 respX (Or.inl rfl)
  have hge : sC9.maxFetchFailures.getD 10 ≤
      sC9.consecutiveFetchFailures + 1 := by decide
  refine ⟨by rw [h.1]; rfl, (h.2.2.2.1 hge).1, ?_, h.2.1⟩
  rw [(h.2.2.2.1 hge).2.1]
  with_unfolding_all decide

theorem takeWhile_append_custom {α : Type} (p : α → Bool) :
    ∀ (a b : List α),
      (a ++ b).takeWhile p =
        if a.all p then a ++ b.takeWhile p else a.takeWhile p := by
  intro a
  induction a with
  | nil => intro b; simp
  | cons x xs ih =>
    intro b
    simp only [List.cons_append, List.takeWhile_cons, List.all_cons]
    cases hx : p x with
    | false => simp
    | true =>
      simp only [Bool.true_and, if_true]
      rw [ih b]
      by_cases hall : xs.all p = true
      · simp [hall]
      · simp only [Bool.not_eq_true] at hall
        simp [hall]

theorem takeWhile_all_eq {α : Type} (p : α → Bool) :
    ∀ (l : List α), l.all p = true → l.takeWhile p = l := by
  intro l
  induction l with
  | nil => intro _; rfl
  | cons x xs ih =>
    intro h
    simp only [List.all_cons, Bool.and_eq_true] at h
    simp [List.takeWhile_cons, h.1, ih h.2]

theorem fsls_all (l : List OrchInput) (h : l.all isFailI = true) :
    failuresSinceSuccess l = l.length := by
  unfold failuresSinceSuccess
  rw [takeWhile_all_eq isFailI l.reverse (by simpa using h)]
  exact List.length_reverse l

theorem foldl_fails_eq :
    ∀ (l : List OrchInput) (c : ℕ),
      l.foldl (fun a i => if isFailI i then a + 1 else 0) c =
        if l.all isFailI then c + l.length else failuresSinceSuccess l := by
  intro l
  induction l with
  | nil => intro c; simp [failuresSinceSuccess]
  | cons i t ih =>
    intro c
    simp only [List.foldl_cons, List.all_cons]
    unfold failuresSinceSuccess
    rw [List.reverse_cons, takeWhile_append_custom]
    by_cases hfi : isFailI i = true
    · simp only [hfi, if_true, Bool.true_and]
      rw [ih (c + 1)]
      by_cases hall : t.all isFailI = true
      · have hrall : t.reverse.all isFailI = true := by simpa using hall
        simp only [hall, hrall, if_true, List.length_cons, List.length_append,
          List.takeWhile_cons, hfi, List.takeWhile_nil, List.length_reverse]
        omega
      · have hrall : ¬ t.reverse.all isFailI = true := by simpa using hall
        simp only [Bool.not_eq_true] at hall hrall
        simp only [hall, hrall, Bool.false_eq_true, if_false,
          Bool.false_and]
        rfl
    · simp only [Bool.not_eq_true] at hfi
      simp only [hfi, Bool.false_and, Bool.false_eq_true, if_false]
      rw [ih 0]
      by_cases hall : t.all isFailI = true
      · have hrall : t.reverse.all isFailI = true := by simpa using hall
        simp only [hall, hrall, if_true, List.takeWhile_cons, hfi,
          Bool.false_eq_true, if_false, List.length_append,
          List.length_reverse, List.length_nil]
        simp [fsls_all t hall]
      · have hrall : ¬ t.reverse.all isFailI = true := by simpa using hall
        simp only [Bool.not_eq_true] at hall hrall
        simp only [hall, hrall, Bool.false_eq_true, if_false]
        rfl

theorem run_cff :
    ∀ (l : List OrchInput) (s : DslState), allProcessed s l →
      (runOrch s l).consecutiveFetchFailures =
        l.foldl (fun a i => if isFailI i then a + 1 else 0)
          s.consecutiveFetchFailures := by
  intro l
  induction l with
  | nil => intro s _; rfl
  | cons i t ih =>
    intro s hall
    obtain ⟨hel, hrest⟩ := hall
    rw [runOrch_cons, ih _ hrest]
    simp only [List.foldl_cons]
    congr 1
    cases hip : i.price with
    | none =>
      rw [orchTick_fail s i hel hip]
      simp [isFailI, hip]
    | some p =>
      rw [orchTick_success s i p hel hip, process_state_cff]
      simp [isFailI, hip]

theorem orchTick_deact_iff (s : DslState) (inp : OrchInput)
    (h : eligible s) :
    (orchTick s inp).2.deactivatedByFetch = true ↔
      (inp.price = none ∧
        s.maxFetchFailures.getD 10 ≤ s.consecutiveFetchFailures + 1) := by
  cases hip : inp.price with
  | none =>
    rw [orchTick_fail s inp h hip]
    simp [ge_iff_le]
  | some p =>
    rw [orchTick_success s inp p h hip]
    simp

/-- C10: a successful fetch resets the failure counter to 0 before the
decision pipeline runs (which never touches it); across any fully processed
run starting from a zero counter, the counter equals the number of fetch
failures since the last successful fetch; hence the fetch fail-safe can only
deactivate a record after at least `maxFetchFailures` fetch failures with no
intervening successful fetch. -/
theorem c10_fetch_counter (s : DslState) (l : List OrchInput) (p now : ℚ)
    (resp : ℕ → CloseOutcome) (inp : OrchInput)
    (h0 : s.consecutiveFetchFailures = 0) (hall : allProcessed s l) :
    (eligible s →
      (orchTick s ⟨some p, now, resp⟩).1 =
        (process_position { s with consecutiveFetchFailures := 0 }
          p now resp).1 ∧
      (orchTick s ⟨some p, now, resp⟩).1.consecutiveFetchFailures = 0)
    ∧ (runOrch s l).consecutiveFetchFailures = failuresSinceSuccess l
    ∧ (eligible (runOrch s l) →
        (orchTick (runOrch s l) inp).2.deactivatedByFetch = true →
        inp.price = none ∧
        (runOrch s l).maxFetchFailures.getD 10 ≤
          failuresSinceSuccess (l ++ [inp])) := by
  have hcount : (runOrch s l).consecutiveFetchFailures =
      failuresSinceSuccess l := by
    rw [run_cff l s hall, h0, foldl_fails_eq]
    by_cases hfa : l.all isFailI = true
    · rw [if_pos hfa, fsls_all l hfa, Nat.zero_add]
    · rw [if_neg hfa]
  refine ⟨?_, hcount, ?_⟩
  · intro hel
    constructor
    · rw [orchTick_success s ⟨some p, now, resp⟩ p hel rfl]
    · rw [orchTick_success s ⟨some p, now, resp⟩ p hel rfl,
        process_state_cff]
  · intro hel hdeact
    obtain ⟨hip, hge⟩ := (orchTick_deact_iff (runOrch s l) inp hel).mp hdeact
    refine ⟨hip, ?_⟩
    have hfi : isFailI inp = true := by simp [isFailI, hip]
    have hfsls : failuresSinceSuccess (l ++ [inp]) =
        failuresSinceSuccess l + 1 := by
      unfold failuresSinceSuccess
      rw [List.reverse_append]
      simp [List.takeWhile_cons, hfi]
    rw [hfsls, ← hcount]
    exact hge

/-- Active record with a zero failure counter. -/
def sC10 : DslState :=
  { active := true, entryPrice := 100, size := 1, leverage := 5,
    highWaterPrice := 100, phase := 1, currentBreachCount := 0,
    phase1 := { retraceThreshold := 1/20, consecutiveBreachesRequired := 3 } }

/-- C10 witness: two consecutive fetch failures on a fully processed run
leave the counter at exactly 2. -/
theorem c10_fetch_counter_witness :
    (runOrch sC10 [⟨none, 1, respX⟩, ⟨none, 2, respX⟩]).consecutiveFetchFailures
      = 2 := by
  have h := c10_fetch_counter sC10 [⟨none, 1, respX⟩, ⟨none, 2, respX⟩]
    100 1 respX ⟨none, 3, respX⟩ rfl
    ⟨Or.inl rfl, Or.inl (by with_unfolding_all decide), trivial⟩
  rw [h.2.1]
  with_unfolding_all decide
